import Mathlib

/-!
Verification of the relevance-annotation engine of the `ltr/` subsystem:
the SQLite-backed annotation store (`ltr/db.py`), the pairwise Elo
tournament annotator (`ltr/auto_annotate.py`), the leechy-based annotator
(`ltr/leechy_annotate.py`) and the search-API adapter (`ltr/stract.py`),
shallowly embedded as pure Lean functions over an explicit store state.
-/

namespace Ltr

/-! ## Constants (from `ltr/auto_annotate.py` and `ltr/leechy_annotate.py`) -/

def NUM_LABELS : Nat := 4

def ELO_K : Nat := 32

def ELO_SCALE : Nat := 400

def ELO_ROUNDS_MULT : Nat := 5

def NUM_RESULTS_PER_QUERY : Nat := 20

/-! ## The annotation store (`ltr/db.py`)

A row of the `search_results` table: columns `qid`, `url`, `orig_rank`,
`webpage_json` and the nullable `annotation` column (named `annot`
here).  The `queries` table is a
list of `(qid, query)` pairs in insertion (creation) order; `qid` is the
randomly generated primary key, `query` is UNIQUE. -/

structure SearchResultRow where
  qid : String
  url : String
  orig_rank : Nat
  webpage_json : String
  annot : Option Int
deriving DecidableEq, Repr

structure DbState where
  queries : List (String × String)
  search_results : List SearchResultRow
deriving DecidableEq, Repr

/-- A fetched result as inserted by `Db.insert_result`: the code stores
`result["url"]` and `json.dumps(result)`; the serialized payload is kept
opaque. -/
structure WebResult where
  url : String
  payload : String
deriving DecidableEq, Repr

/-- Whether some row with primary key `(qid, url)` is present (the
conflict condition of `INSERT OR IGNORE` on `search_results`). -/
def hasPair (s : DbState) (qid url : String) : Bool :=
  s.search_results.any (fun r => r.qid = qid && r.url = url)

/-- `Db.add_query`: `INSERT OR IGNORE INTO queries (query) VALUES (?)`.
The fresh random `qid` produced by the column default is passed in
explicitly; the insert is ignored on a conflict with the `qid` primary
key or the UNIQUE `query` column. -/
def add_query (qid query : String) (s : DbState) : DbState :=
  if s.queries.any (fun row => row.1 = qid || row.2 = query) then s
  else { s with queries := s.queries ++ [(qid, query)] }

/-- The `NOT EXISTS` subquery of `Db.get_unannotated_queries`: does some
stored result of this query carry a non-null annotation? -/
def hasAnnotatedResult (s : DbState) (qid : String) : Bool :=
  s.search_results.any (fun r => r.qid = qid && r.annot.isSome)

/-- Lexicographic order on character lists by code point (the byte
order SQLite's `ORDER BY` uses on the ASCII hex qid strings). -/
def strLeL : List Char → List Char → Bool
  | [], _ => true
  | _ :: _, [] => false
  | a :: as, b :: bs =>
    if a.toNat < b.toNat then true
    else if b.toNat < a.toNat then false
    else strLeL as bs

/-- The comparison used by `ORDER BY qid`. -/
def qidLe (a b : String × String) : Prop := strLeL a.1.data b.1.data = true

instance : DecidableRel qidLe := fun a b =>
  inferInstanceAs (Decidable (strLeL a.1.data b.1.data = true))

instance : IsTotal (String × String) qidLe :=
  ⟨by
    have key : ∀ x y : List Char, strLeL x y = true ∨ strLeL y x = true := by
      intro x
      induction x with
      | nil => intro y; exact Or.inl rfl
      | cons a as ih =>
        intro y
        cases y with
        | nil => exact Or.inr rfl
        | cons b bs =>
          by_cases h1 : a.toNat < b.toNat
          · left; simp [strLeL, h1]
          · by_cases h2 : b.toNat < a.toNat
            · right; simp [strLeL, h2]
            · rcases ih bs with h | h
              · left; simp [strLeL, h1, h2, h]
              · right; simp [strLeL, h1, h2, h]
    intro a b
    exact key a.1.data b.1.data⟩

instance : IsTrans (String × String) qidLe :=
  ⟨by
    have key : ∀ x y z : List Char,
        strLeL x y = true → strLeL y z = true → strLeL x z = true := by
      intro x
      induction x with
      | nil => intro y z _ _; rfl
      | cons a as ih =>
        intro y z hxy hyz
        cases y with
        | nil => simp [strLeL] at hxy
        | cons b bs =>
          cases z with
          | nil => simp [strLeL] at hyz
          | cons c cs =>
            simp only [strLeL] at hxy hyz ⊢
            split_ifs at hxy hyz ⊢ <;>
              first
                | rfl
                | omega
                | (exact ih bs cs hxy hyz)
    intro a b c h1 h2
    exact key a.1.data b.1.data c.1.data h1 h2⟩

/-- `Db.get_unannotated_queries`: selects the queries with no
annotated stored result, `ORDER BY qid`. -/
def get_unannotated_queries (s : DbState) : List (String × String) :=
  List.insertionSort qidLe (s.queries.filter (fun q => !hasAnnotatedResult s q.1))

/-- Modelled from the spec (claim wording, for comparison with
`get_unannotated_queries`): every query for which at least one stored
result has a null label, or which has zero stored results at all,
in creation order of the query. -/
def get_unannotated_queries_spec (s : DbState) : List (String × String) :=
  s.queries.filter (fun q =>
    s.search_results.any (fun r => r.qid = q.1 && r.annot.isNone) ||
    !(s.search_results.any (fun r => r.qid = q.1)))

/-- `Db.insert_result`: `INSERT OR IGNORE INTO search_results
(qid, url, orig_rank, webpage_json) VALUES (?, ?, ?, ?)`; the
`annotation` column takes its NULL default. -/
def insert_result (qid : String) (rank : Nat) (result : WebResult) (s : DbState) : DbState :=
  if hasPair s qid result.url then s
  else { s with search_results :=
    s.search_results ++ [⟨qid, result.url, rank, result.payload, none⟩] }

/-- `Db.insert_results`: `for i, result in enumerate(results):
insert_result(qid, i, result)`. -/
def insert_results (qid : String) (results : List WebResult) (s : DbState) : DbState :=
  results.enum.foldl (fun st p => insert_result qid p.1 p.2 st) s

/-- The comparison used by `ORDER BY orig_rank`. -/
def rankLe (a b : SearchResultRow) : Prop := a.orig_rank ≤ b.orig_rank

instance : DecidableRel rankLe := fun a b =>
  inferInstanceAs (Decidable (a.orig_rank ≤ b.orig_rank))

instance : IsTotal SearchResultRow rankLe :=
  ⟨fun a b => Nat.le_total a.orig_rank b.orig_rank⟩

instance : IsTrans SearchResultRow rankLe :=
  ⟨fun _ _ _ h1 h2 => Nat.le_trans h1 h2⟩

/-- `Db.get_unannotated_results`: rows of the query with
`annotation IS NULL`, `ORDER BY orig_rank`. -/
def get_unannotated_results (s : DbState) (qid : String) : List SearchResultRow :=
  List.insertionSort rankLe
    (s.search_results.filter (fun r => r.qid = qid && r.annot.isNone))

/-- `Db.annotate`: `UPDATE search_results SET annotation = ?
WHERE qid = ? AND url = ?`.  An UPDATE that matches no row simply
affects zero rows; the code raises no error in that case. -/
def annotate (qid url : String) (annot : Int) (s : DbState) : DbState :=
  { s with search_results := s.search_results.map (fun r =>
      if r.qid = qid && r.url = url then { r with annot := some annot } else r) }

/-- Modelled from the spec (claim wording, for comparison with
`annotate`): sets the label of an existing `(queryId, url)` pair and
fails with `NotFoundError` when no such pair exists. -/
def annotate_spec (qid url : String) (annot : Int) (s : DbState) :
    Except String DbState :=
  if hasPair s qid url then Except.ok (annotate qid url annot s)
  else Except.error "NotFoundError"

/-! ## The pairwise Elo tournament (`ltr/auto_annotate.py`) -/

/-- Fuelled floor of the binary logarithm (structurally recursive so
that it evaluates by kernel reduction; `log2c_eq_log2` below identifies
it with `Nat.log2`). -/
def log2_fuel : Nat → Nat → Nat
  | 0, _ => 0
  | f + 1, n => if 2 ≤ n then log2_fuel f (n / 2) + 1 else 0

/-- Floor of the binary logarithm, with `log2c 0 = 0`. -/
def log2c (n : Nat) : Nat := log2_fuel n n

/-- Label assigned to the candidate at sorted position `i`:
`NUM_LABELS - int(np.log2(i + 1))`.  The floor of the binary
logarithm agrees with `int(np.log2(i + 1))` for every list length that
fits in a double's 53-bit mantissa range. -/
def label_at (i : Nat) : Int := (NUM_LABELS : Int) - (log2c (i + 1) : Int)

/-- Modelled from the spec (claim wording, for comparison with
`label_at`): `clamp(NUM_LABELS - floor(log2(i+1)), 0, NUM_LABELS)`. -/
def label_clamp_spec (i : Nat) : Int :=
  min (max ((NUM_LABELS : Int) - (log2c (i + 1) : Int)) 0) (NUM_LABELS : Int)

/-- The label-boundedness invariant on one `annotation` cell: null or
an integer between 0 and `NUM_LABELS`. -/
def annOk : Option Int → Prop
  | none => True
  | some k => 0 ≤ k ∧ k ≤ (NUM_LABELS : Int)

instance : DecidablePred annOk := fun a =>
  match a with
  | none => inferInstanceAs (Decidable True)
  | some k => inferInstanceAs (Decidable (0 ≤ k ∧ k ≤ (NUM_LABELS : Int)))

/-- The comparison of Python's `sorted(xs, key=key, reverse=True)`:
an element comes no later than another when its key is at least the
other's. -/
def keyRel [LinearOrder β] (key : α → β) : α → α → Prop :=
  fun a b => key b ≤ key a

instance [LinearOrder β] (key : α → β) : DecidableRel (keyRel key) :=
  fun a b => inferInstanceAs (Decidable (key b ≤ key a))

instance [LinearOrder β] (key : α → β) : IsTotal α (keyRel key) :=
  ⟨fun a b => le_total (key b) (key a)⟩

instance [LinearOrder β] (key : α → β) : IsTrans α (keyRel key) :=
  ⟨fun _ _ _ h1 h2 => le_trans h2 h1⟩

/-- Python's `sorted(xs, key=key, reverse=True)`: a stable sort placing
larger keys first.  `List.insertionSort` with `keyRel` inserts a
later-processed (earlier-input) element before the first element whose
key is less than or equal to its own, which is exactly the stable
descending order. -/
def pySortDesc [LinearOrder β] (key : α → β) (l : List α) : List α :=
  List.insertionSort (keyRel key) l

/-- A candidate as seen by the sorting step of the tournament: its url,
the `orig_rank` it came with (position in the `ORDER BY orig_rank`
result list) and its final Elo rating. -/
structure RatedCand where
  url : String
  orig_rank : Nat
  rating : ℚ
deriving DecidableEq, Repr

/-- The sort of `auto_annotate.py`:
`sorted(elo.items(), key=lambda x: x[1], reverse=True)` applied to the
per-candidate ratings, the items listed in `orig_rank` order. -/
def elo_sort (l : List RatedCand) : List RatedCand :=
  pySortDesc RatedCand.rating l

/-- Rating initialisation `{url: ELO_SCALE // 2 for url, _, _ in results}`
(Python integer floor division of the nonnegative `ELO_SCALE`). -/
def elo_init (results : List SearchResultRow) : List (String × Int) :=
  results.map (fun r => (r.url, ((ELO_SCALE : Int) / 2)))

/-- The label-assignment and persistence loop (`auto_annotate.py`
lines 276-293): the candidate at sorted position `i` is annotated with
`label_at i`. -/
def persist_labels (qid : String) (sortedUrls : List String) (s : DbState) : DbState :=
  sortedUrls.enum.foldl (fun st p => annotate qid p.2 (label_at p.1) st) s

/-- The round loop control flow: each of the `ELO_ROUNDS_MULT * N`
iterations begins with `random.sample(unnanotated_results, 2)`, which
raises `ValueError` whenever the population has fewer than two
elements.  Returns the number of rounds executed. -/
def run_rounds (rounds : Nat) (results : List SearchResultRow) : Except String Nat :=
  match rounds with
  | 0 => Except.ok 0
  | r + 1 =>
    if 2 ≤ results.length then (run_rounds r results).map (· + 1)
    else Except.error "ValueError: Sample larger than population or is negative"

/-- The whole round phase of one tournament:
`for _ in range(0, ELO_ROUNDS_MULT * len(unnanotated_results))`. -/
def tournament_rounds (results : List SearchResultRow) : Except String Nat :=
  run_rounds (ELO_ROUNDS_MULT * results.length) results

/-! ## Judge-output parsing and the Elo update -/

/-- Does the character list start with the given pattern? (Helper for
Python's substring containment test.) -/
def startsWithL : List Char → List Char → Bool
  | _, [] => true
  | [], _ :: _ => false
  | c :: cs, p :: ps => c = p && startsWithL cs ps

/-- Does the character list contain the pattern as a contiguous
subsequence? -/
def containsSubL (needle : List Char) : List Char → Bool
  | [] => needle.isEmpty
  | c :: cs => startsWithL (c :: cs) needle || containsSubL needle cs

/-- Python's `needle in haystack` on strings. -/
def pyIn (needle haystack : String) : Bool :=
  containsSubL needle.toList haystack.toList

/-- `get_best`: prefer A (returns 1) when the completion contains
"Best: RESULT_A", else prefer B (returns 0) when it contains
"Best: RESULT_B", else no decision. -/
def get_best (res : String) : Option Nat :=
  if pyIn "Best: RESULT_A" res then some 1
  else if pyIn "Best: RESULT_B" res then some 0
  else none

/-- `elo_update(winner, loser, elo)`: the logistic Elo update of
`auto_annotate.py`, ratings kept as real numbers. -/
noncomputable def elo_update (winner loser : String) (elo : String → ℝ) : String → ℝ :=
  let p_winner : ℝ := 1 / (1 + (10 : ℝ) ^ ((elo loser - elo winner) / (ELO_SCALE : ℝ)))
  let p_loser : ℝ := 1 - p_winner
  let elo1 := Function.update elo winner (elo winner + (ELO_K : ℝ) * (1 - p_winner))
  Function.update elo1 loser (elo1 loser + (ELO_K : ℝ) * (0 - p_loser))

/-- One round's rating step given the judge's completion text
(`auto_annotate.py` lines 264-269): no decision leaves the ratings
untouched, `1` means A beat B, any other decision means B beat A. -/
noncomputable def round_step (url_a url_b : String) (output : String)
    (elo : String → ℝ) : String → ℝ :=
  match get_best output with
  | none => elo
  | some relevancy =>
    if relevancy = 1 then elo_update url_a url_b elo else elo_update url_b url_a elo

/-! ## The search-API adapter (`ltr/stract.py`)

JSON values, as far as the adapter inspects them. -/

inductive Json where
  | str : String → Json
  | num : Int → Json
  | arr : List Json → Json
  | obj : List (String × Json) → Json

/-- Key lookup in a JSON object (Python `d[key]`, `None` models the
raised `KeyError`). -/
def jsonLookup (fields : List (String × Json)) (key : String) : Option Json :=
  (fields.find? (fun kv => kv.1 = key)).map (fun kv => kv.2)

/-- `mapMOpt f l` models a Python list comprehension over `l` where
evaluating `f` may raise: the first failure aborts the whole
comprehension. -/
def mapMOpt (f : α → Option β) : List α → Option (List β)
  | [] => some []
  | a :: l =>
    match f a, mapMOpt f l with
    | some b, some bs => some (b :: bs)
    | _, _ => none

/-- One fragment's text: `f["text"]`, which must exist and be a string
(the strings are joined afterwards). -/
def fragmentText : Json → Option String
  | Json.obj fields =>
    match jsonLookup fields "text" with
    | some (Json.str s) => some s
    | _ => none
  | _ => none

/-- `simplify_snippet`: returns `""` when the snippet object has no
"text" key; otherwise joins the texts of `snippet["text"]["fragments"]`,
raising (modelled by `none`) when that structure is missing or
malformed. -/
def simplify_snippet (snippet : Json) : Option String :=
  match snippet with
  | Json.obj fields =>
    if fields.any (fun kv => kv.1 = "text") then
      match jsonLookup fields "text" with
      | some (Json.obj tfields) =>
        match jsonLookup tfields "fragments" with
        | some (Json.arr frags) => (mapMOpt fragmentText frags).map String.join
        | _ => none
      | _ => none
    else some ""
  | _ => none

/-- A raw webpage of the search response, with the fields the adapter
reads. -/
structure Webpage where
  url : String
  title : String
  rankingSignals : List (String × Json)
  snippet : Json

/-- The normalized candidate record built by `search`. -/
structure SearchRecord where
  url : String
  title : String
  rankingSignals : List (String × Json)
  snippet : String

/-- `v["value"]` for one ranking signal. -/
def signalValue : Json → Option Json
  | Json.obj fields => jsonLookup fields "value"
  | _ => none

/-- The record comprehension body of `search` for one webpage. -/
def mkRecord (w : Webpage) : Option SearchRecord :=
  match mapMOpt (fun sv => (signalValue sv.2).map (fun v => (sv.1, v))) w.rankingSignals,
        simplify_snippet w.snippet with
  | some sig, some snip => some ⟨w.url, w.title, sig, snip⟩
  | _, _ => none

/-- `stract.search`, applied to the decoded `webpages` list of the
response: normalizes the first `num_results` webpages; any raising
candidate aborts the whole call. -/
def search (webpages : List Webpage) (num_results : Nat) : Option (List SearchRecord) :=
  mapMOpt mkRecord (webpages.take num_results)

/-! ## Concrete example states used by the witnesses and
counterexamples -/

/-- Store with a partially annotated query "B" (created first) and a
resultless query "A": `queries` holds creation order. -/
def exC1a : DbState :=
  ⟨[("B", "qb"), ("A", "qa")],
   [⟨"B", "u1", 0, "x", some 3⟩, ⟨"B", "u2", 1, "x", none⟩]⟩

/-- Store with two resultless queries whose creation order "B" before
"A" is the reverse of their qid order. -/
def exC1b : DbState :=
  ⟨[("B", "qb"), ("A", "qa")], []⟩

/-- Store holding one query with 32 unannotated results `u0` .. `u31`. -/
def exC4 : DbState :=
  ⟨[("Q", "q")],
   (List.range 32).map (fun i => ⟨"Q", "u" ++ toString i, i, "x", none⟩)⟩

/-- The sorted url list the tournament produces on `exC4` when every
round is a no-decision round: ratings stay at the baseline, so the
stable sort keeps the `orig_rank` order. -/
def exC4_sorted : List String :=
  (pySortDesc Prod.snd (elo_init (get_unannotated_results exC4 "Q"))).map Prod.fst

/-- The store after the tournament persists its labels on `exC4`. -/
def exC4_final : DbState := persist_labels "Q" exC4_sorted exC4

/-- A one-query, one-result store. -/
def exSmall : DbState :=
  ⟨[("Q", "q")], [⟨"Q", "u", 0, "x", none⟩]⟩

/-- A tie-heavy rated candidate list, already in `orig_rank` order. -/
def exC5 : List RatedCand :=
  [⟨"a", 0, 1⟩, ⟨"b", 1, 2⟩, ⟨"c", 2, 1⟩]

/-- A webpage whose snippet object lacks the "text" key. -/
def exC9kept : Webpage := ⟨"u", "t", [], Json.obj []⟩

/-- A webpage whose snippet has a "text" key of the wrong shape. -/
def exC9bad : Webpage := ⟨"v", "t", [], Json.obj [("text", Json.num 0)]⟩

/-! # Theorems -/

/-! ## Facts about the binary logarithm and the label map -/

theorem log2_fuel_eq : ∀ (f n : Nat), n ≤ f → log2_fuel f n = Nat.log2 n := by
  intro f
  induction f with
  | zero =>
    intro n hn
    have h0 : n = 0 := Nat.le_zero.mp hn
    subst h0
    unfold Nat.log2
    simp [log2_fuel]
  | succ f ih =>
    intro n hn
    by_cases h2 : 2 ≤ n
    · have hdiv : n / 2 < n := Nat.div_lt_self (by omega) (by omega)
      have hle : n / 2 ≤ f := by omega
      conv_rhs => unfold Nat.log2
      rw [if_pos h2]
      simp [log2_fuel, h2, ih (n / 2) hle]
    · conv_rhs => unfold Nat.log2
      rw [if_neg h2]
      simp [log2_fuel, h2]

theorem log2c_eq_log2 (n : Nat) : log2c n = Nat.log2 n :=
  log2_fuel_eq n n le_rfl

theorem label_at_le_four (i : Nat) : label_at i ≤ (NUM_LABELS : Int) := by
  have h : (0 : Int) ≤ (log2c (i + 1) : Int) := Int.ofNat_nonneg _
  simp only [label_at]
  omega

theorem label_at_nonneg (i : Nat) (h : i ≤ 30) : 0 ≤ label_at i := by
  have hlt : Nat.log2 (i + 1) < 5 := (Nat.log2_lt (by omega)).mpr (by omega)
  have hc := log2c_eq_log2 (i + 1)
  simp only [label_at, NUM_LABELS]
  omega

theorem label_at_neg_of_31_le (i : Nat) (h : 31 ≤ i) : label_at i < 0 := by
  have hge : 5 ≤ Nat.log2 (i + 1) := (Nat.le_log2 (by omega)).mpr (by omega)
  have hc := log2c_eq_log2 (i + 1)
  simp only [label_at, NUM_LABELS]
  omega

theorem label_at_eq_clamp (i : Nat) (h : i ≤ 30) : label_at i = label_clamp_spec i := by
  have h0 := label_at_nonneg i h
  have h4 := label_at_le_four i
  simp only [label_at, label_clamp_spec, NUM_LABELS] at h0 h4 ⊢
  omega

/-! ## Claim C2: labels at sorted positions -/

/-- Claim C2, counterexample: at sorted position 31 the code assigns
label `NUM_LABELS - floor(log2 32) = -1`, while the claimed clamped
formula yields 0; the claim is false as stated. -/
theorem label_at_31_counterexample :
    label_at 31 = -1 ∧ label_clamp_spec 31 = 0 := by decide

/-- Claim C2, amended: the candidate at sorted position `i` receives
`NUM_LABELS - floor(log2(i+1))` with no clamping; this agrees with the
claimed `clamp(NUM_LABELS - floor(log2(i+1)), 0, NUM_LABELS)` exactly
for positions `i ≤ 30`, and is negative for every position `i ≥ 31`. -/
theorem label_at_correct (i : Nat) :
    (i ≤ 30 → label_at i = label_clamp_spec i) ∧ (31 ≤ i → label_at i < 0) :=
  ⟨label_at_eq_clamp i, label_at_neg_of_31_le i⟩

/-- Claim C2, witness: the amended statement instantiated at positions
3 and 40. -/
theorem label_at_correct_witness : label_at 3 = label_clamp_spec 3 ∧ label_at 40 < 0 :=
  ⟨(label_at_correct 3).1 (by decide), (label_at_correct 40).2 (by decide)⟩

/-! ## Claim C3: the N = 1 and N = 0 tournaments -/

/-- Claim C3: evaluation of the round loop of the code.  For `N = 0`
the loop body never runs (a no-op, as claimed), but for `N = 1` the
code schedules `ELO_ROUNDS_MULT * 1 = 5` rounds and the first call to
`random.sample(population, 2)` raises `ValueError`, so the tournament
crashes instead of executing zero rounds and assigning
`label = NUM_LABELS`. -/
theorem tournament_rounds_small_eval :
    tournament_rounds ([] : List SearchResultRow) = Except.ok 0 ∧
    tournament_rounds [⟨"Q", "u", 0, "x", none⟩] =
      Except.error "ValueError: Sample larger than population or is negative" ∧
    ELO_ROUNDS_MULT * 1 = 5 ∧ label_at 0 = (NUM_LABELS : Int) :=
  ⟨rfl, rfl, rfl, rfl⟩

/-! ## Claim C1: which queries are returned as unannotated -/

/-- Claim C1, counterexample.  In `exC1a` query "B" has one labeled and
one unlabeled result: the claim says "B" is returned (at least one
null label), the code excludes it because one of its results is
annotated.  In `exC1b` both queries qualify, and the code returns them
ordered by qid, the reverse of their creation order that the claim
demands. -/
theorem get_unannotated_queries_counterexample :
    get_unannotated_queries exC1a = [("A", "qa")] ∧
    get_unannotated_queries_spec exC1a = [("B", "qb"), ("A", "qa")] ∧
    get_unannotated_queries exC1b = [("A", "qa"), ("B", "qb")] ∧
    get_unannotated_queries_spec exC1b = [("B", "qb"), ("A", "qa")] := by
  refine ⟨by decide, by decide, by decide, by decide⟩

/-- Claim C1, amended: `get_unannotated_queries` returns exactly the
queries none of whose stored results has a non-null label (so a query
with at least one labeled and at least one unlabeled result is *not*
returned), and the returned sequence is ordered by qid ascending — not
by creation order. -/
theorem get_unannotated_queries_correct (s : DbState) (q t : String) :
    ((q, t) ∈ get_unannotated_queries s ↔
      ((q, t) ∈ s.queries ∧ ∀ r ∈ s.search_results, r.qid = q → r.annot = none)) ∧
    (get_unannotated_queries s).Sorted qidLe := by
  constructor
  · rw [get_unannotated_queries, (List.perm_insertionSort qidLe _).mem_iff, List.mem_filter]
    simp only [hasAnnotatedResult, Bool.not_eq_true', List.any_eq_false, Bool.and_eq_true,
      decide_eq_true_eq, not_and, Option.not_isSome_iff_eq_none]
  · exact List.sorted_insertionSort qidLe _

/-! ## Claim C8: behavior of annotate -/

theorem map_eq_self_of {α : Type} {l : List α} {f : α → α} (h : ∀ a ∈ l, f a = a) :
    l.map f = l := by
  induction l with
  | nil => rfl
  | cons a l ih => simp [h a (by simp), ih (fun b hb => h b (by simp [hb]))]

/-- Claim C8, amended: `annotate` sets or overwrites the label of every
existing `(queryId, url)` row, leaves all other rows untouched, and when
no such pair exists it silently leaves the store unchanged — it does not
fail with `NotFoundError`. -/
theorem annotate_correct (s : DbState) (qid url : String) (lab : Int) :
    (hasPair s qid url = false → annotate qid url lab s = s) ∧
    (∀ r ∈ s.search_results, r.qid = qid → r.url = url →
        ({ r with annot := some lab } : SearchResultRow) ∈
          (annotate qid url lab s).search_results) ∧
    (∀ r ∈ (annotate qid url lab s).search_results, r.qid = qid → r.url = url →
        r.annot = some lab) ∧
    (∀ r ∈ s.search_results, ¬(r.qid = qid ∧ r.url = url) →
        r ∈ (annotate qid url lab s).search_results) := by
  refine ⟨?_, ?_, ?_, ?_⟩
  · intro h
    have hall : ∀ r ∈ s.search_results, ¬((r.qid = qid && r.url = url) = true) := by
      simp only [hasPair, List.any_eq_false] at h
      exact h
    have hmap : ∀ r ∈ s.search_results,
        (if r.qid = qid && r.url = url then { r with annot := some lab } else r) = r := by
      intro r hr
      rw [if_neg (hall r hr)]
    show { s with search_results := _ } = s
    rw [map_eq_self_of hmap]
  · intro r hr hq hu
    have heq : (if r.qid = qid && r.url = url then { r with annot := some lab } else r)
        = ({ r with annot := some lab } : SearchResultRow) := by
      rw [if_pos (by simp [hq, hu])]
    exact heq ▸ List.mem_map_of_mem _ hr
  · intro r hr hq hu
    rcases List.mem_map.mp hr with ⟨a, ha, hfa⟩
    by_cases hc : (a.qid = qid && a.url = url) = true
    · rw [if_pos hc] at hfa
      rw [← hfa]
    · rw [if_neg hc] at hfa
      subst hfa
      simp [hq, hu] at hc
  · intro r hr hnc
    have heq : (if r.qid = qid && r.url = url then { r with annot := some lab } else r) = r := by
      rw [if_neg (by simpa using hnc)]
    exact heq ▸ List.mem_map_of_mem _ hr

/-- Claim C8, counterexample: on the empty store the pair ("Q", "u")
does not exist, yet `annotate` returns the store unchanged (a normal
return, no `NotFoundError`), diverging from the spec model
`annotate_spec`, which fails. -/
theorem annotate_missing_counterexample :
    annotate "Q" "u" 3 ⟨[], []⟩ = (⟨[], []⟩ : DbState) ∧
    annotate_spec "Q" "u" 3 ⟨[], []⟩ = Except.error "NotFoundError" := ⟨rfl, rfl⟩

/-- Claim C8, witness: overwriting the existing pair of `exSmall`
stores the new label. -/
theorem annotate_correct_witness :
    ({ qid := "Q", url := "u", orig_rank := 0, webpage_json := "x",
       annot := some 2 } : SearchResultRow) ∈
      (annotate "Q" "u" 2 exSmall).search_results :=
  (annotate_correct exSmall "Q" "u" 2).2.1 ⟨"Q", "u", 0, "x", none⟩ (by decide) rfl rfl

/-! ## Claim C7: idempotent inserts -/

theorem insert_result_of_hasPair (qid : String) (rank : Nat) (res : WebResult) (s : DbState)
    (h : hasPair s qid res.url = true) : insert_result qid rank res s = s := by
  unfold insert_result
  rw [if_pos h]

theorem hasPair_insert_result (qid q2 u2 : String) (rank : Nat) (res : WebResult)
    (s : DbState) (h : hasPair s q2 u2 = true) :
    hasPair (insert_result qid rank res s) q2 u2 = true := by
  unfold insert_result
  split
  · exact h
  · simp only [hasPair] at h ⊢
    rw [List.any_append]
    simp [h]

theorem hasPair_insert_result_self (qid : String) (rank : Nat) (res : WebResult)
    (s : DbState) : hasPair (insert_result qid rank res s) qid res.url = true := by
  unfold insert_result
  split
  · assumption
  · simp only [hasPair]
    rw [List.any_append]
    simp

theorem foldl_insert_preserves (qid q2 u2 : String) (l : List (Nat × WebResult))
    (s : DbState) (h : hasPair s q2 u2 = true) :
    hasPair (l.foldl (fun st p => insert_result qid p.1 p.2 st) s) q2 u2 = true := by
  induction l generalizing s with
  | nil => exact h
  | cons p l ih =>
    rw [List.foldl_cons]
    exact ih _ (hasPair_insert_result qid q2 u2 p.1 p.2 s h)

theorem foldl_insert_mem (qid : String) (l : List (Nat × WebResult)) :
    ∀ (s : DbState), ∀ p ∈ l,
      hasPair (l.foldl (fun st p2 => insert_result qid p2.1 p2.2 st) s) qid p.2.url = true := by
  induction l with
  | nil => intro s p hp; cases hp
  | cons p2 l ih =>
    intro s p hp
    rw [List.foldl_cons]
    rcases List.mem_cons.mp hp with h | h
    · subst h
      exact foldl_insert_preserves qid qid p.2.url l _
        (hasPair_insert_result_self qid p.1 p.2 s)
    · exact ih _ p h

theorem foldl_insert_id (qid : String) (l : List (Nat × WebResult)) :
    ∀ (s : DbState), (∀ p ∈ l, hasPair s qid p.2.url = true) →
      l.foldl (fun st p => insert_result qid p.1 p.2 st) s = s := by
  induction l with
  | nil => intro s _; rfl
  | cons p l ih =>
    intro s h
    rw [List.foldl_cons, insert_result_of_hasPair qid p.1 p.2 s (h p (List.mem_cons_self p l))]
    exact ih s (fun p2 hp2 => h p2 (List.mem_cons_of_mem p hp2))

/-- Claim C7: calling `add_query` twice with the same text (the second
generated qid being arbitrary, the first one fresh, as `RANDOMBLOB`
guarantees), or `insert_results` twice with identical
`(queryId, orderedCandidates)` arguments, leaves the store exactly as
one call does, and re-insertion of an existing `(queryId, url)` pair is
ignored. -/
theorem store_insert_idempotent (s : DbState) (qid qid2 q : String) (rank : Nat)
    (res : WebResult) (rs : List WebResult) :
    ((∀ row ∈ s.queries, row.1 ≠ qid) →
        add_query qid2 q (add_query qid q s) = add_query qid q s) ∧
    (insert_results qid rs (insert_results qid rs s) = insert_results qid rs s) ∧
    (hasPair s qid res.url = true → insert_result qid rank res s = s) := by
  refine ⟨?_, ?_, ?_⟩
  · intro hfresh
    by_cases hq : (s.queries.any (fun row => row.1 = qid || row.2 = q)) = true
    · have hrow : ∃ row ∈ s.queries, row.2 = q := by
        simp only [List.any_eq_true, Bool.or_eq_true, decide_eq_true_eq] at hq
        rcases hq with ⟨row, hmem, h1 | h2⟩
        · exact absurd h1 (hfresh row hmem)
        · exact ⟨row, hmem, h2⟩
      have h1 : add_query qid q s = s := by
        unfold add_query
        rw [if_pos hq]
      have hcond2 : (s.queries.any (fun row => row.1 = qid2 || row.2 = q)) = true := by
        rcases hrow with ⟨row, hmem, hq2⟩
        simp only [List.any_eq_true, Bool.or_eq_true, decide_eq_true_eq]
        exact ⟨row, hmem, Or.inr hq2⟩
      rw [h1]
      unfold add_query
      rw [if_pos hcond2]
    · have h1 : add_query qid q s = { s with queries := s.queries ++ [(qid, q)] } := by
        unfold add_query
        rw [if_neg hq]
      rw [h1]
      unfold add_query
      rw [if_pos (by rw [List.any_append]; simp)]
  · unfold insert_results
    exact foldl_insert_id qid rs.enum _ (fun p hp => foldl_insert_mem qid rs.enum s p hp)
  · exact insert_result_of_hasPair qid rank res s

/-- Claim C7, witness: the idempotency statements instantiated on
concrete stores. -/
theorem store_insert_idempotent_witness :
    (add_query "B" "qq" (add_query "A" "qq" exSmall) = add_query "A" "qq" exSmall) ∧
    (insert_results "Q" [⟨"u", "x"⟩, ⟨"v", "y"⟩]
        (insert_results "Q" [⟨"u", "x"⟩, ⟨"v", "y"⟩] exSmall)
      = insert_results "Q" [⟨"u", "x"⟩, ⟨"v", "y"⟩] exSmall) ∧
    (insert_result "Q" 7 ⟨"u", "z"⟩ exSmall = exSmall) :=
  ⟨(store_insert_idempotent exSmall "A" "B" "qq" 0 ⟨"u", "x"⟩ []).1 (by decide),
   (store_insert_idempotent exSmall "Q" "X" "t" 0 ⟨"u", "x"⟩ [⟨"u", "x"⟩, ⟨"v", "y"⟩]).2.1,
   (store_insert_idempotent exSmall "Q" "X" "t" 7 ⟨"u", "z"⟩ []).2.2 (by decide)⟩

/-! ## Claim C4: boundedness of persisted labels -/

theorem annOk_annotate (qid url : String) (lab : Int) (s : DbState)
    (hs : ∀ r ∈ s.search_results, annOk r.annot) (hl : annOk (some lab)) :
    ∀ r ∈ (annotate qid url lab s).search_results, annOk r.annot := by
  intro r hr
  rcases List.mem_map.mp hr with ⟨a, ha, hfa⟩
  by_cases hc : (a.qid = qid && a.url = url) = true
  · rw [if_pos hc] at hfa
    rw [← hfa]
    exact hl
  · rw [if_neg hc] at hfa
    rw [← hfa]
    exact hs a ha

theorem enumFrom_fst_lt {α : Type} (n : Nat) (l : List α) :
    ∀ p ∈ List.enumFrom n l, p.1 < n + l.length := by
  induction l generalizing n with
  | nil => intro p hp; cases hp
  | cons a l ih =>
    intro p hp
    rcases List.mem_cons.mp hp with h | h
    · subst h
      simp
    · have := ih (n + 1) p h
      simp only [List.length_cons]
      omega

theorem foldl_annotate_annOk (qid : String) (l : List (Nat × String)) :
    ∀ s : DbState, (∀ r ∈ s.search_results, annOk r.annot) →
      (∀ p ∈ l, annOk (some (label_at p.1))) →
      ∀ r ∈ (l.foldl (fun st p => annotate qid p.2 (label_at p.1) st) s).search_results,
        annOk r.annot := by
  induction l with
  | nil => intro s hs _; exact hs
  | cons p l ih =>
    intro s hs hl
    rw [List.foldl_cons]
    exact ih _ (annOk_annotate qid p.2 (label_at p.1) s hs (hl p (List.mem_cons_self p l)))
      (fun q hq => hl q (List.mem_cons_of_mem p hq))

/-- Claim C4, amended: persisted labels are never above `NUM_LABELS`,
and the label-boundedness invariant (every persisted label null or in
`{0,...,4}`) is preserved by the tournament's persistence pass only
when the tournament ranks at most 31 candidates; `Db.annotate` itself
performs no range validation, and positions from 31 onward receive
negative labels. -/
theorem persist_labels_bounded (s : DbState) (qid : String) (urls : List String)
    (hs : ∀ r ∈ s.search_results, annOk r.annot) (hn : urls.length ≤ 31) :
    ∀ r ∈ (persist_labels qid urls s).search_results, annOk r.annot := by
  unfold persist_labels
  refine foldl_annotate_annOk qid urls.enum s hs ?_
  intro p hp
  have hlt := enumFrom_fst_lt 0 urls p hp
  exact ⟨label_at_nonneg p.1 (by omega), label_at_le_four p.1⟩

set_option maxRecDepth 8000 in
/-- Claim C4, counterexample: running the code's own write path (the
no-decision tournament over the 32 unannotated candidates of `exC4`,
followed by the label-persistence pass) stores the out-of-range label
`-1` on the candidate at sorted position 31. -/
theorem persist_labels_negative_counterexample :
    (⟨"Q", "u31", 31, "x", some (-1)⟩ : SearchResultRow) ∈ exC4_final.search_results ∧
    ¬ annOk (some (-1)) := ⟨by decide, by decide⟩

/-- Claim C4, witness: the amended boundedness statement applied to a
one-candidate persistence pass. -/
theorem persist_labels_bounded_witness :
    annOk ((⟨"Q", "u", 0, "x", some 4⟩ : SearchResultRow).annot) :=
  persist_labels_bounded exSmall "Q" ["u"] (by decide) (by decide)
    ⟨"Q", "u", 0, "x", some 4⟩ (by decide)

/-! ## Claim C5: final ordering of the tournament -/

theorem pairwise_orderedInsert_stable {α β : Type} [LinearOrder β] (key : α → β)
    (R : α → α → Prop) (a : α) :
    ∀ m : List α, m.Sorted (keyRel key) →
      m.Pairwise (fun x y => key y < key x ∨ (key x = key y ∧ R x y)) →
      (∀ b ∈ m, key a = key b → R a b) →
      (List.orderedInsert (keyRel key) a m).Pairwise
        (fun x y => key y < key x ∨ (key x = key y ∧ R x y)) := by
  intro m
  induction m with
  | nil =>
    intro _ _ _
    simp [List.orderedInsert]
  | cons y ys ih =>
    intro hm hp ha
    rw [List.orderedInsert]
    by_cases hr : keyRel key a y
    · rw [if_pos hr]
      refine List.Pairwise.cons ?_ hp
      intro z hz
      rcases List.mem_cons.mp hz with h | h
      · subst h
        rcases lt_or_eq_of_le hr with hlt | heq
        · exact Or.inl hlt
        · exact Or.inr ⟨heq.symm, ha z (List.mem_cons_self z ys) heq.symm⟩
      · have hzy : key z ≤ key y := List.rel_of_sorted_cons hm z h
        rcases lt_or_eq_of_le (le_trans hzy hr) with hlt | heq
        · exact Or.inl hlt
        · exact Or.inr ⟨heq.symm, ha z (List.mem_cons_of_mem y h) heq.symm⟩
    · rw [if_neg hr]
      have hay : key a < key y := lt_of_not_le hr
      refine List.Pairwise.cons ?_
        (ih hm.of_cons hp.of_cons (fun b hb => ha b (List.mem_cons_of_mem y hb)))
      intro z hz
      rcases (List.mem_orderedInsert (keyRel key)).mp hz with h | h
      · subst h
        exact Or.inl hay
      · exact List.rel_of_pairwise_cons hp h

theorem insertionSort_stable_pairwise {α β : Type} [LinearOrder β] (key : α → β)
    (R : α → α → Prop) :
    ∀ l : List α, l.Pairwise R →
      (pySortDesc key l).Pairwise (fun x y => key y < key x ∨ (key x = key y ∧ R x y)) := by
  intro l
  induction l with
  | nil =>
    intro _
    simp [pySortDesc, List.insertionSort]
  | cons a l ih =>
    intro h
    show (List.orderedInsert (keyRel key) a (List.insertionSort (keyRel key) l)).Pairwise _
    refine pairwise_orderedInsert_stable key R a _
      (List.sorted_insertionSort (keyRel key) l) (ih h.of_cons) ?_
    intro b hb _
    exact List.rel_of_pairwise_cons h ((List.perm_insertionSort (keyRel key) l).mem_iff.mp hb)

/-- Claim C5: when the candidates enter the sort in `orig_rank` order
(as `ORDER BY orig_rank` guarantees), the tournament's final order is a
permutation of them sorted by rating descending, and any two candidates
with equal final ratings appear in ascending `orig_rank` order — the
stable-sort tie-break of `sorted(..., reverse=True)`.  The whole
pipeline is a pure function of the candidate list and the judge
decisions, so the resulting order and labels are identical across
repeated runs. -/
theorem elo_sort_correct (l : List RatedCand)
    (h : l.Pairwise (fun a b => a.orig_rank ≤ b.orig_rank)) :
    (elo_sort l).Perm l ∧
    (elo_sort l).Pairwise (fun a b =>
      b.rating < a.rating ∨ (a.rating = b.rating ∧ a.orig_rank ≤ b.orig_rank)) :=
  ⟨List.perm_insertionSort (keyRel RatedCand.rating) l,
   insertionSort_stable_pairwise RatedCand.rating (fun a b => a.orig_rank ≤ b.orig_rank) l h⟩

/-- Claim C5, witness: the ordering statement on a candidate list with
one tie, where the tied candidates "a" and "c" keep ascending
`orig_rank` order. -/
theorem elo_sort_correct_witness :
    (elo_sort exC5).Perm exC5 ∧
    (elo_sort exC5).Pairwise (fun a b =>
      b.rating < a.rating ∨ (a.rating = b.rating ∧ a.orig_rank ≤ b.orig_rank)) :=
  elo_sort_correct exC5 (by decide)

/-! ## Claim C6: the Elo update is zero-sum -/

/-- Claim C6: in any round with a decision between two distinct
candidates, the winner gains `K * (1 - p)` with
`p = 1 / (1 + 10 ^ ((ratingLoser - ratingWinner) / ELO_SCALE))`, and
the loser loses exactly the same amount. -/
theorem elo_update_zero_sum (winner loser : String) (elo : String → ℝ) (h : winner ≠ loser) :
    (elo_update winner loser elo) winner - elo winner
        = (ELO_K : ℝ) *
            (1 - 1 / (1 + (10 : ℝ) ^ ((elo loser - elo winner) / (ELO_SCALE : ℝ)))) ∧
    (elo_update winner loser elo) winner - elo winner
        = -((elo_update winner loser elo) loser - elo loser) := by
  unfold elo_update
  simp only [Function.update_same, Function.update_noteq h, Function.update_noteq (Ne.symm h)]
  constructor
  · ring
  · ring

/-- Claim C6, witness: the zero-sum equation at two concrete candidates
with baseline ratings. -/
theorem elo_update_zero_sum_witness :
    (elo_update "a" "b" (fun _ => (200 : ℝ))) "a" - (200 : ℝ)
      = -((elo_update "a" "b" (fun _ => (200 : ℝ))) "b" - (200 : ℝ)) :=
  (elo_update_zero_sum "a" "b" (fun _ => (200 : ℝ)) (by decide)).2

/-! ## Claim C10: parsing of the judge's completion -/

/-- Claim C10: the parser prefers A exactly when the completion
contains "Best: RESULT_A" (so a completion containing both markers
yields A), otherwise prefers B exactly when it contains
"Best: RESULT_B", otherwise reports no decision; and a no-decision
round leaves every rating unchanged. -/
theorem get_best_correct (res url_a url_b : String) (elo : String → ℝ) :
    (get_best res = some 1 ↔ pyIn "Best: RESULT_A" res = true) ∧
    (get_best res = some 0 ↔
      (pyIn "Best: RESULT_A" res = false ∧ pyIn "Best: RESULT_B" res = true)) ∧
    (get_best res = none ↔
      (pyIn "Best: RESULT_A" res = false ∧ pyIn "Best: RESULT_B" res = false)) ∧
    (get_best res = none → round_step url_a url_b res elo = elo) := by
  by_cases hA : pyIn "Best: RESULT_A" res = true
  · simp [get_best, hA]
  · by_cases hB : pyIn "Best: RESULT_B" res = true
    · simp [get_best, hA, hB]
    · simp [get_best, hA, hB, round_step]

/-- Claim C10, witness: a completion containing both markers is parsed
as a preference for A, and a marker-free completion leaves the ratings
function unchanged. -/
theorem get_best_correct_witness :
    get_best "Best: RESULT_A then Best: RESULT_B" = some 1 ∧
    round_step "a" "b" "no markers here" (fun _ => (200 : ℝ)) = (fun _ => (200 : ℝ)) :=
  ⟨(get_best_correct "Best: RESULT_A then Best: RESULT_B" "a" "b" (fun _ => 200)).1.mpr
      (by decide),
   (get_best_correct "no markers here" "a" "b" (fun _ => (200 : ℝ))).2.2.2 (by decide)⟩

/-! ## Claim C9: snippet normalization in the search adapter -/

theorem mapMOpt_length {α β : Type} (f : α → Option β) :
    ∀ l : List α, (∀ a ∈ l, (f a).isSome = true) →
      ∃ r, mapMOpt f l = some r ∧ r.length = l.length := by
  intro l
  induction l with
  | nil =>
    intro _
    exact ⟨[], rfl, rfl⟩
  | cons a l ih =>
    intro h
    rcases Option.isSome_iff_exists.mp (h a (List.mem_cons_self a l)) with ⟨b, hb⟩
    rcases ih (fun x hx => h x (List.mem_cons_of_mem a hx)) with ⟨r, hr, hlen⟩
    refine ⟨b :: r, ?_, by simp [hlen]⟩
    simp [mapMOpt, hb, hr]

theorem mapMOpt_none {α β : Type} (f : α → Option β) :
    ∀ l : List α, ∀ a ∈ l, f a = none → mapMOpt f l = none := by
  intro l
  induction l with
  | nil => intro a ha; cases ha
  | cons b l ih =>
    intro a ha hfa
    rcases List.mem_cons.mp ha with h | h
    · subst h
      simp [mapMOpt, hfa]
    · cases hfb : f b <;> simp [mapMOpt, hfb, ih a h hfa]

/-- Claim C9, amended: a candidate whose snippet object lacks the
"text" key is kept with its snippet normalized to the empty string; no
candidate is ever dropped (when every candidate normalizes, `search`
returns one record per taken webpage), and a candidate whose snippet is
otherwise malformed makes the whole call raise instead of being
dropped. -/
theorem search_normalization :
    (∀ fields : List (String × Json), fields.any (fun kv => kv.1 = "text") = false →
        simplify_snippet (Json.obj fields) = some "") ∧
    (∀ (ws : List Webpage) (n : Nat), (∀ w ∈ ws, (mkRecord w).isSome = true) →
        ∃ l, search ws n = some l ∧ l.length = (ws.take n).length) ∧
    (∀ (ws : List Webpage) (n : Nat) (w : Webpage), w ∈ ws.take n → mkRecord w = none →
        search ws n = none) := by
  refine ⟨?_, ?_, ?_⟩
  · intro fields h
    simp [simplify_snippet, h]
  · intro ws n h
    exact mapMOpt_length mkRecord (ws.take n) (fun w hw => h w (List.mem_of_mem_take hw))
  · intro ws n w hw hnone
    exact mapMOpt_none mkRecord (ws.take n) w hw hnone

/-- Claim C9, counterexample: the webpage `exC9kept`, whose snippet
lacks the expected text/fragment structure, is kept in the result (with
an empty snippet) rather than dropped; and the webpage `exC9bad`, whose
snippet has a malformed "text" field, causes the whole call to fail
rather than being silently dropped. -/
theorem search_drop_counterexample :
    search [exC9kept] 20 = some [⟨"u", "t", [], ""⟩] ∧
    search [exC9bad] 20 = none := ⟨rfl, rfl⟩

/-- Claim C9, witness: the amended statement instantiated on concrete
webpages. -/
theorem search_normalization_witness :
    simplify_snippet (Json.obj []) = some "" ∧
    (∃ l, search [exC9kept] 20 = some l ∧ l.length = ([exC9kept].take 20).length) ∧
    search [exC9bad] 20 = none :=
  ⟨search_normalization.1 [] rfl,
   search_normalization.2.1 [exC9kept] 20
     (fun w hw => by
       rcases List.mem_singleton.mp hw with h
       subst h
       rfl),
   search_normalization.2.2 [exC9bad] 20 exC9bad (by simp) rfl⟩

end Ltr
